import Mathlib

/-!
Verification of the order-store state machine of `pubg_donat_bot.py`.

The bot keeps one SQLite table `orders` with columns
`id, user_id, username, option, amount, status, created_at, note`,
where `id` is an `INTEGER PRIMARY KEY AUTOINCREMENT` column and `status`
holds one of the strings `"pending"`, `"paid_waiting"`, `"done"`.
We embed the table as a list of records together with the autoincrement
counter, and each handler (`add_order`, `cmd_paid`, `cmd_fulfill`,
`got_payment`, `my_orders`) as a pure function on that state.  Outbound
chat messages are side effects without influence on the store and are not
modelled; the order-id argument of `/paid` and `/fulfill` is taken
directly as a number (the handlers reject non-digit arguments before
touching the store, a path that never reaches the table).
-/

namespace PubgBot

/-- One row of the `orders` table. -/
structure Order where
  id : Nat
  user_id : Int
  username : String
  option : String
  amount : Int
  status : String
  created_at : Nat
  note : Option String
deriving DecidableEq

/-- The persisted state: the rows of the `orders` table in insertion
order, plus the SQLite `AUTOINCREMENT` counter (the next rowid to be
assigned; SQLite starts at 1 and never reuses a rowid of this table). -/
structure Store where
  orders : List Order
  next_id : Nat
deriving DecidableEq

/-- The state right after `init_db`: an empty table, first rowid 1. -/
def initStore : Store := { orders := [], next_id := 1 }

/-- Outcome of a handler, per the error kinds of the spec: the replies
"Buyurtma topilmadi." (`NotFound`), "Buyurtma holati: ..." on `/paid`
(`InvalidState`), "Foydalanuvchi emas." (`Unauthorized`) and
"Buyurtma allaqachon bajarilgan." (`AlreadyDone`). -/
inductive Result where
  | Ok
  | NotFound
  | InvalidState
  | Unauthorized
  | AlreadyDone
deriving DecidableEq

/-- `SELECT ... FROM orders WHERE id=?` followed by `fetchone`:
the first row whose `id` matches, if any. -/
def findOrder (s : Store) (order_id : Nat) : Option Order :=
  s.orders.find? (fun o => o.id = order_id)

/-- `UPDATE orders SET status=? WHERE id=?`. -/
def updateStatus (s : Store) (order_id : Nat) (st : String) : Store :=
  { s with orders :=
      s.orders.map (fun o => if o.id = order_id then { o with status := st } else o) }

/-- `add_order(user_id, username, option, amount, status="pending", note=None)`:
`INSERT INTO orders (user_id, username, option, amount, status, note)`,
returning `cur.lastrowid`.  `created_at` gets `CURRENT_TIMESTAMP`,
passed here as an explicit clock value. -/
def add_order (s : Store) (user_id : Int) (username : String) (opt : String)
    (amount : Int) (status : String) (note : Option String) (now : Nat) :
    Nat × Store :=
  let o : Order :=
    { id := s.next_id, user_id := user_id, username := username, option := opt,
      amount := amount, status := status, created_at := now, note := note }
  (s.next_id, { orders := s.orders ++ [o], next_id := s.next_id + 1 })

/-- The `/paid <order_id>` handler `cmd_paid`, after its digit check on the
argument.  The sender's identity (`message.from_user`) is available to the
handler but never consulted: it is carried here as `caller_id` to make that
explicit.  Looks the order up, rejects a missing id and a status other than
`"pending"`, otherwise sets the status to `"paid_waiting"`. -/
def cmd_paid (s : Store) (caller_id : Int) (order_id : Nat) : Result × Store :=
  match findOrder s order_id with
  | none => (Result.NotFound, s)
  | some row =>
    if row.status ≠ "pending" then (Result.InvalidState, s)
    else (Result.Ok, updateStatus s order_id "paid_waiting")

/-- The `/fulfill <order_id>` handler `cmd_fulfill`: first the allow-list
check `message.from_user.id not in ADMIN_IDS`, then the lookup, then the
`row[3] == "done"` guard, then `UPDATE ... SET status='done'`. -/
def cmd_fulfill (admins : List Int) (s : Store) (requester_id : Int)
    (order_id : Nat) : Result × Store :=
  if requester_id ∉ admins then (Result.Unauthorized, s)
  else
    match findOrder s order_id with
    | none => (Result.NotFound, s)
    | some row =>
      if row.status = "done" then (Result.AlreadyDone, s)
      else (Result.Ok, updateStatus s order_id "done")

/-- The `SUCCESSFUL_PAYMENT` handler `got_payment`: records the external
payment as `add_order(..., status="done")` with the invoice payload as the
option text. -/
def got_payment (s : Store) (user_id : Int) (username : String)
    (payload : String) (total_amount : Int) (now : Nat) : Nat × Store :=
  add_order s user_id username payload total_amount "done" none now

/-- Insert an order into a list kept in decreasing `id` order. -/
def insertByIdDesc (o : Order) : List Order → List Order
  | [] => [o]
  | x :: xs => if x.id ≤ o.id then o :: x :: xs else x :: insertByIdDesc o xs

/-- Sort a list of orders by decreasing `id`. -/
def sortByIdDesc : List Order → List Order
  | [] => []
  | x :: xs => insertByIdDesc x (sortByIdDesc xs)

/-- The "Buyurtmalarim" handler `my_orders`:
`SELECT ... FROM orders WHERE user_id=? ORDER BY id DESC`. -/
def my_orders (s : Store) (user_id : Int) : List Order :=
  sortByIdDesc (s.orders.filter (fun o => o.user_id = user_id))

/-- The ASCII whitespace stripped by Python `str.strip()`. -/
def pySpace (c : Char) : Bool :=
  c = ' ' || c = '\t' || c = '\n' || c = '\r' || c = '\x0b' || c = '\x0c'

def pyStripChars (l : List Char) : List Char :=
  ((l.dropWhile pySpace).reverse.dropWhile pySpace).reverse

/-- Python `str.strip()`: drop leading and trailing whitespace. -/
def pyStrip (s : String) : String := String.mk (pyStripChars s.data)

/-- Python `str.isdigit()` (ASCII range): non-empty and all digits. -/
def pyIsDigit (s : String) : Bool := !s.data.isEmpty && s.data.all Char.isDigit

/-- Python `int(x)` on an entry that strips to a digit string: `int`
itself ignores surrounding whitespace, so the value is that of the
stripped decimal digits. -/
def pyInt (s : String) : Int :=
  ((pyStrip s).data.foldl (fun n c => n * 10 + (c.toNat - Char.toNat '0')) 0 : Nat)

def splitCommaAux : List Char → List Char → List String
  | [], acc => [String.mk acc.reverse]
  | c :: cs, acc =>
    if c = ',' then String.mk acc.reverse :: splitCommaAux cs []
    else splitCommaAux cs (c :: acc)

/-- Python `str.split(",")`: the comma-separated pieces, keeping empty
ones (`"".split(",")` is `[""]`). -/
def pySplitComma (s : String) : List String := splitCommaAux s.data []

/-- `ADMIN_IDS = [int(x) for x in ADMIN_IDS_ENV.split(",") if x.strip().isdigit()]`. -/
def parseAdminIds (env : String) : List Int :=
  ((pySplitComma env).filter (fun x => pyIsDigit (pyStrip x))).map pyInt

/-- The store operations a run of the bot can perform, as dispatched by
the handlers: a manual order (`process_option` without a provider token,
status `"pending"`), an external payment (`got_payment`, status `"done"`),
a payment report (`cmd_paid`) and a fulfillment (`cmd_fulfill`). -/
inductive Op where
  | create (user_id : Int) (username : String) (opt : String) (amount : Int) (now : Nat)
  | direct (user_id : Int) (username : String) (payload : String) (amount : Int) (now : Nat)
  | paid (caller_id : Int) (order_id : Nat)
  | fulfill (requester_id : Int) (order_id : Nat)
deriving DecidableEq

/-- Effect of one operation on the store. -/
def applyOp (admins : List Int) (s : Store) : Op → Store
  | Op.create uid un opt a now => (add_order s uid un opt a "pending" none now).2
  | Op.direct uid un p a now => (got_payment s uid un p a now).2
  | Op.paid c oid => (cmd_paid s c oid).2
  | Op.fulfill r oid => (cmd_fulfill admins s r oid).2

/-- Effect of a sequence of operations. -/
def run (admins : List Int) (s : Store) (ops : List Op) : Store :=
  ops.foldl (applyOp admins) s

/-- Does the operation come from the `/paid` or `/fulfill` handler
(the two operations that mutate an existing order's status)? -/
def Op.isStatusOp : Op → Bool
  | Op.paid _ _ => true
  | Op.fulfill _ _ => true
  | Op.create _ _ _ _ _ => false
  | Op.direct _ _ _ _ _ => false

/-- Is the operation the external-payment handler `got_payment`? -/
def Op.isDirect : Op → Bool
  | Op.direct _ _ _ _ _ => true
  | _ => false

/-- Position of a status on the chain `pending → paid_waiting → done`
(unknown strings sit at the bottom of the chain). -/
def statusRank (st : String) : Nat :=
  if st = "paid_waiting" then 1 else if st = "done" then 2 else 0

/-- Well-formedness guaranteed by SQLite's `AUTOINCREMENT`: every stored
rowid is below the counter, and rows sit in strictly increasing rowid
order. -/
def Wf (s : Store) : Prop :=
  (∀ o ∈ s.orders, o.id < s.next_id) ∧
    s.orders.Pairwise (fun a b => a.id < b.id)

theorem Wf_initStore : Wf initStore := by
  constructor
  · intro o ho; simp [initStore] at ho
  · simp [initStore]

/-- In a list of strictly increasing ids, an id determines the row. -/
theorem eq_of_mem_of_id_eq {l : List Order}
    (hl : l.Pairwise (fun a b => a.id < b.id)) {a b : Order}
    (ha : a ∈ l) (hb : b ∈ l) (hid : a.id = b.id) : a = b := by
  induction l with
  | nil => cases ha
  | cons x xs ih =>
    rcases List.pairwise_cons.1 hl with ⟨hx, hxs⟩
    rcases List.mem_cons.1 ha with ha' | ha' <;> rcases List.mem_cons.1 hb with hb' | hb'
    · rw [ha', hb']
    · subst ha'; exact absurd hid (Nat.ne_of_lt (hx b hb'))
    · subst hb'; exact absurd hid.symm (Nat.ne_of_lt (hx a ha'))
    · exact ih hxs ha' hb'

/-- `find? (id = oid)` on the updated list is the update of the found row. -/
theorem find?_map_update (l : List Order) (oid : Nat) (st : String) :
    (l.map (fun o => if o.id = oid then { o with status := st } else o)).find?
        (fun o => o.id = oid) =
      (l.find? (fun o => o.id = oid)).map
        (fun o => { o with status := st }) := by
  induction l with
  | nil => rfl
  | cons x xs ih =>
    by_cases h : x.id = oid
    · simp [h]
    · simp [h, ih]

theorem findOrder_updateStatus (s : Store) (oid : Nat) (st : String) :
    findOrder (updateStatus s oid st) oid =
      (findOrder s oid).map (fun o => { o with status := st }) :=
  find?_map_update s.orders oid st

theorem findOrder_mem {s : Store} {oid : Nat} {o : Order}
    (h : findOrder s oid = some o) : o ∈ s.orders ∧ o.id = oid := by
  refine ⟨List.mem_of_find?_eq_some h, ?_⟩
  have := List.find?_some h
  simpa using this

/-- With well-formed ids, lookup of a member's id returns that member. -/
theorem findOrder_eq_of_mem {s : Store} (hWf : Wf s) {o : Order}
    (ho : o ∈ s.orders) : findOrder s o.id = some o := by
  cases h : findOrder s o.id with
  | none =>
    have : ∀ x ∈ s.orders, ¬((fun o' => decide (o'.id = o.id)) x = true) :=
      List.find?_eq_none.1 h
    have := this o ho
    simp at this
  | some row =>
    rcases findOrder_mem h with ⟨hrow, hrowid⟩
    exact congrArg some (eq_of_mem_of_id_eq hWf.2 hrow ho hrowid)

/-- `cmd_paid` either leaves the store alone or performs the single
`UPDATE ... SET status='paid_waiting'`. -/
theorem cmd_paid_snd (s : Store) (c : Int) (oid : Nat) :
    (cmd_paid s c oid).2 = s ∨
      (cmd_paid s c oid).2 = updateStatus s oid "paid_waiting" := by
  cases h : findOrder s oid with
  | none => left; simp [cmd_paid, h]
  | some row =>
    by_cases hs : row.status = "pending"
    · right; simp [cmd_paid, h, hs]
    · left; simp [cmd_paid, h, hs]

/-- `cmd_fulfill` either leaves the store alone or performs the single
`UPDATE ... SET status='done'`. -/
theorem cmd_fulfill_snd (admins : List Int) (s : Store) (r : Int) (oid : Nat) :
    (cmd_fulfill admins s r oid).2 = s ∨
      (cmd_fulfill admins s r oid).2 = updateStatus s oid "done" := by
  by_cases hr : r ∈ admins
  · cases h : findOrder s oid with
    | none => left; simp [cmd_fulfill, hr, h]
    | some row =>
      by_cases hs : row.status = "done"
      · left; simp [cmd_fulfill, hr, h, hs]
      · right; simp [cmd_fulfill, hr, h, hs]
  · left; simp [cmd_fulfill, hr]

theorem Wf_updateStatus {s : Store} (h : Wf s) (oid : Nat) (st : String) :
    Wf (updateStatus s oid st) := by
  refine ⟨?_, ?_⟩
  · intro o ho
    rcases List.mem_map.1 ho with ⟨x, hx, rfl⟩
    have hid : ((if x.id = oid then { x with status := st } else x) : Order).id = x.id := by
      by_cases hxo : x.id = oid <;> simp [hxo]
    rw [hid]
    exact h.1 x hx
  · show List.Pairwise _ (List.map _ _)
    rw [List.pairwise_map]
    refine h.2.imp ?_
    intro a b hab
    have ha : ((if a.id = oid then { a with status := st } else a) : Order).id = a.id := by
      by_cases h1 : a.id = oid <;> simp [h1]
    have hb : ((if b.id = oid then { b with status := st } else b) : Order).id = b.id := by
      by_cases h1 : b.id = oid <;> simp [h1]
    simp only [ha, hb]
    exact hab

theorem Wf_add_order {s : Store} (h : Wf s) (uid : Int) (un opt : String)
    (a : Int) (st : String) (nt : Option String) (now : Nat) :
    Wf (add_order s uid un opt a st nt now).2 := by
  refine ⟨?_, ?_⟩
  · intro o ho
    simp [add_order] at ho
    rcases ho with ho | ho
    · exact Nat.lt_succ_of_lt (h.1 o ho)
    · rw [ho]; exact Nat.lt_succ_self _
  · simp only [add_order]
    rw [List.pairwise_append]
    refine ⟨h.2, List.pairwise_singleton _ _, ?_⟩
    intro x hx b hb
    simp at hb
    rw [hb]
    exact h.1 x hx

theorem Wf_applyOp (admins : List Int) {s : Store} (h : Wf s) (op : Op) :
    Wf (applyOp admins s op) := by
  cases op with
  | create uid un opt a now => exact Wf_add_order h uid un opt a "pending" none now
  | direct uid un p a now => exact Wf_add_order h uid un p a "done" none now
  | paid c oid =>
    rcases cmd_paid_snd s c oid with hs | hs <;> rw [applyOp, hs]
    · exact h
    · exact Wf_updateStatus h oid "paid_waiting"
  | fulfill r oid =>
    rcases cmd_fulfill_snd admins s r oid with hs | hs <;> rw [applyOp, hs]
    · exact h
    · exact Wf_updateStatus h oid "done"

theorem Wf_run (admins : List Int) {s : Store} (h : Wf s) (ops : List Op) :
    Wf (run admins s ops) := by
  induction ops generalizing s with
  | nil => exact h
  | cons op ops ih => exact ih (Wf_applyOp admins h op)

theorem statusRank_le_two (st : String) : statusRank st ≤ 2 := by
  unfold statusRank
  by_cases h1 : st = "paid_waiting" <;> by_cases h2 : st = "done" <;> simp [h1, h2]

theorem statusRank_pending : statusRank "pending" = 0 := by decide

theorem statusRank_done : statusRank "done" = 2 := by decide

/-- One handler step either leaves a stored row unchanged or advances its
status forward along `pending → paid_waiting → done`, never touching any
field but `status`. -/
theorem applyOp_mem_step (admins : List Int) {s : Store} (hWf : Wf s) (op : Op)
    {o : Order} (ho : o ∈ s.orders) :
    ∃ o' ∈ (applyOp admins s op).orders, o'.id = o.id ∧
      (o' = o ∨ (o.status = "pending" ∧ o' = { o with status := "paid_waiting" }) ∨
        (o.status ≠ "done" ∧ o' = { o with status := "done" })) := by
  cases op with
  | create uid un opt a now =>
    refine ⟨o, ?_, rfl, Or.inl rfl⟩
    show o ∈ s.orders ++ [_]
    exact List.mem_append_left _ ho
  | direct uid un p a now =>
    refine ⟨o, ?_, rfl, Or.inl rfl⟩
    show o ∈ s.orders ++ [_]
    exact List.mem_append_left _ ho
  | paid c oid =>
    cases h : findOrder s oid with
    | none =>
      have hst : applyOp admins s (Op.paid c oid) = s := by
        simp [applyOp, cmd_paid, h]
      rw [hst]
      exact ⟨o, ho, rfl, Or.inl rfl⟩
    | some row =>
      by_cases hs : row.status = "pending"
      · have hst : applyOp admins s (Op.paid c oid) = updateStatus s oid "paid_waiting" := by
          simp [applyOp, cmd_paid, h, hs]
        rw [hst]
        by_cases hoid : o.id = oid
        · have hrow : row = o := by
            rcases findOrder_mem h with ⟨hrm, hrid⟩
            exact eq_of_mem_of_id_eq hWf.2 hrm ho (hrid.trans hoid.symm)
          refine ⟨{ o with status := "paid_waiting" }, ?_, rfl, ?_⟩
          · have := List.mem_map_of_mem
              (fun o : Order => if o.id = oid then { o with status := "paid_waiting" } else o) ho
            simpa [updateStatus, hoid] using this
          · exact Or.inr (Or.inl ⟨by rw [← hrow]; exact hs, rfl⟩)
        · refine ⟨o, ?_, rfl, Or.inl rfl⟩
          have := List.mem_map_of_mem
            (fun o : Order => if o.id = oid then { o with status := "paid_waiting" } else o) ho
          simpa [updateStatus, hoid] using this
      · have hst : applyOp admins s (Op.paid c oid) = s := by
          simp [applyOp, cmd_paid, h, hs]
        rw [hst]
        exact ⟨o, ho, rfl, Or.inl rfl⟩
  | fulfill r oid =>
    by_cases hr : r ∈ admins
    · cases h : findOrder s oid with
      | none =>
        have hst : applyOp admins s (Op.fulfill r oid) = s := by
          simp [applyOp, cmd_fulfill, hr, h]
        rw [hst]
        exact ⟨o, ho, rfl, Or.inl rfl⟩
      | some row =>
        by_cases hs : row.status = "done"
        · have hst : applyOp admins s (Op.fulfill r oid) = s := by
            simp [applyOp, cmd_fulfill, hr, h, hs]
          rw [hst]
          exact ⟨o, ho, rfl, Or.inl rfl⟩
        · have hst : applyOp admins s (Op.fulfill r oid) = updateStatus s oid "done" := by
            simp [applyOp, cmd_fulfill, hr, h, hs]
          rw [hst]
          by_cases hoid : o.id = oid
          · have hrow : row = o := by
              rcases findOrder_mem h with ⟨hrm, hrid⟩
              exact eq_of_mem_of_id_eq hWf.2 hrm ho (hrid.trans hoid.symm)
            refine ⟨{ o with status := "done" }, ?_, rfl, ?_⟩
            · have := List.mem_map_of_mem
                (fun o : Order => if o.id = oid then { o with status := "done" } else o) ho
              simpa [updateStatus, hoid] using this
            · exact Or.inr (Or.inr ⟨by rw [← hrow]; exact hs, rfl⟩)
          · refine ⟨o, ?_, rfl, Or.inl rfl⟩
            have := List.mem_map_of_mem
              (fun o : Order => if o.id = oid then { o with status := "done" } else o) ho
            simpa [updateStatus, hoid] using this
    · have hst : applyOp admins s (Op.fulfill r oid) = s := by
        simp [applyOp, cmd_fulfill, hr]
      rw [hst]
      exact ⟨o, ho, rfl, Or.inl rfl⟩

/-- Along any run, a stored row keeps its id, its status only climbs the
chain `pending → paid_waiting → done`, and a `done` row is never touched
again. -/
theorem run_mem_status (admins : List Int) (ops : List Op) {s : Store} (hWf : Wf s)
    {o : Order} (ho : o ∈ s.orders) :
    ∃ o' ∈ (run admins s ops).orders, o'.id = o.id ∧
      statusRank o.status ≤ statusRank o'.status ∧
      (o.status = "done" → o' = o) := by
  induction ops generalizing s o with
  | nil => exact ⟨o, ho, rfl, Nat.le_refl _, fun _ => rfl⟩
  | cons op ops ih =>
    rcases applyOp_mem_step admins hWf op ho with ⟨o₁, ho₁, hid₁, hcase⟩
    have hWf₁ := Wf_applyOp admins hWf op
    rcases ih hWf₁ ho₁ with ⟨o', ho', hid', hrank', hdone'⟩
    refine ⟨o', ho', hid'.trans hid₁, ?_, ?_⟩
    · rcases hcase with h1 | h1 | h1
      · rw [h1] at hrank'
        exact hrank'
      · rw [h1.1, statusRank_pending]
        exact Nat.zero_le _
      · have ho'₁ : o' = o₁ := hdone' (by rw [h1.2])
        have : statusRank o'.status = 2 := by rw [ho'₁, h1.2]; exact statusRank_done
        rw [this]
        exact statusRank_le_two _
    · intro hd
      rcases hcase with h1 | h1 | h1
      · rw [← h1]
        exact hdone' (by rw [h1, hd])
      · obtain ⟨hp, _⟩ := h1
        rw [hd] at hp
        exact absurd hp (by decide)
      · exact absurd hd h1.1

theorem next_id_applyOp (admins : List Int) (s : Store) (op : Op) :
    s.next_id ≤ (applyOp admins s op).next_id := by
  cases op with
  | create uid un opt a now => exact Nat.le_succ _
  | direct uid un p a now => exact Nat.le_succ _
  | paid c oid =>
    rcases cmd_paid_snd s c oid with h | h <;>
      · show s.next_id ≤ (cmd_paid s c oid).2.next_id
        simp [h, updateStatus]
  | fulfill r oid =>
    rcases cmd_fulfill_snd admins s r oid with h | h <;>
      · show s.next_id ≤ (cmd_fulfill admins s r oid).2.next_id
        simp [h, updateStatus]

theorem next_id_run (admins : List Int) (ops : List Op) (s : Store) :
    s.next_id ≤ (run admins s ops).next_id := by
  induction ops generalizing s with
  | nil => exact Nat.le_refl _
  | cons op ops ih => exact le_trans (next_id_applyOp admins s op) (ih _)

theorem insertByIdDesc_perm (o : Order) (l : List Order) :
    (insertByIdDesc o l).Perm (o :: l) := by
  induction l with
  | nil => exact List.Perm.refl _
  | cons x xs ih =>
    by_cases h : x.id ≤ o.id
    · simp only [insertByIdDesc, if_pos h]
      exact List.Perm.refl _
    · simp only [insertByIdDesc, if_neg h]
      exact (ih.cons x).trans (List.Perm.swap o x xs)

theorem sortByIdDesc_perm (l : List Order) : (sortByIdDesc l).Perm l := by
  induction l with
  | nil => exact List.Perm.refl _
  | cons x xs ih =>
    exact (insertByIdDesc_perm x (sortByIdDesc xs)).trans (ih.cons x)

theorem insertByIdDesc_sorted (o : Order) (l : List Order)
    (hl : l.Pairwise (fun a b => b.id ≤ a.id)) :
    (insertByIdDesc o l).Pairwise (fun a b => b.id ≤ a.id) := by
  induction l with
  | nil => simp [insertByIdDesc]
  | cons x xs ih =>
    rcases List.pairwise_cons.1 hl with ⟨hx, hxs⟩
    by_cases h : x.id ≤ o.id
    · simp only [insertByIdDesc, if_pos h]
      refine List.pairwise_cons.2 ⟨?_, hl⟩
      intro b hb
      rcases List.mem_cons.1 hb with hb' | hb'
      · rw [hb']; exact h
      · exact le_trans (hx b hb') h
    · simp only [insertByIdDesc, if_neg h]
      refine List.pairwise_cons.2 ⟨?_, ih hxs⟩
      intro b hb
      rcases List.mem_cons.1 ((insertByIdDesc_perm o xs).mem_iff.1 hb) with hb' | hb'
      · rw [hb']; exact Nat.le_of_lt (Nat.lt_of_not_le h)
      · exact hx b hb'

theorem sortByIdDesc_sorted (l : List Order) :
    (sortByIdDesc l).Pairwise (fun a b => b.id ≤ a.id) := by
  induction l with
  | nil => simp [sortByIdDesc]
  | cons x xs ih => exact insertByIdDesc_sorted x (sortByIdDesc xs) ih

/-- Frame condition for the status-update handlers: the counter is kept,
rows correspond one to one, every field other than `status` is kept, and a
row whose id is not the targeted one is kept whole. -/
def FrameOk (oid : Nat) (old new : Store) : Prop :=
  new.next_id = old.next_id ∧
    List.Forall₂ (fun o o' : Order =>
      o'.id = o.id ∧ o'.user_id = o.user_id ∧ o'.username = o.username ∧
        o'.option = o.option ∧ o'.amount = o.amount ∧
        o'.created_at = o.created_at ∧ o'.note = o.note ∧
        (o.id ≠ oid → o' = o)) old.orders new.orders

theorem FrameOk_updateStatus (s : Store) (oid : Nat) (st : String) :
    FrameOk oid s (updateStatus s oid st) := by
  refine ⟨rfl, ?_⟩
  show List.Forall₂ _ s.orders (s.orders.map _)
  induction s.orders with
  | nil => exact List.Forall₂.nil
  | cons x xs ih =>
    refine List.Forall₂.cons ?_ ih
    by_cases h : x.id = oid
    · simp [h]
    · simp [h]

theorem FrameOk_refl (oid : Nat) (s : Store) : FrameOk oid s s := by
  refine ⟨rfl, ?_⟩
  induction s.orders with
  | nil => exact List.Forall₂.nil
  | cons x xs ih => exact List.Forall₂.cons (by simp) ih

/-- A store with one order, as left by one manual "Donat qilish" order. -/
def sampleOrder : Order :=
  { id := 1, user_id := 10, username := "user", option := "100 UC",
    amount := 100, status := "pending", created_at := 0, note := none }

def sampleStore : Store := { orders := [sampleOrder], next_id := 2 }

/-- A store whose single order has already been fulfilled. -/
def doneOrder : Order := { sampleOrder with status := "done" }

def doneStore : Store := { orders := [doneOrder], next_id := 2 }

theorem Wf_sampleStore : Wf sampleStore := by
  constructor
  · intro o ho
    rw [List.mem_singleton.1 ho]
    decide
  · exact List.pairwise_singleton _ _

/-- C1: across any sequence of `/paid` (`report_payment`) and `/fulfill`
operations on a well-formed store, every order's status only moves
forward along `pending → paid_waiting → done` — its rank on that chain
never decreases — and an order whose status is `done` is never changed by
any later operation. -/
theorem claim1_status_monotone (admins : List Int) (s : Store) (hWf : Wf s)
    (ops : List Op) (hops : ∀ op ∈ ops, op.isStatusOp = true)
    {o : Order} (ho : o ∈ s.orders) :
    ∃ o' ∈ (run admins s ops).orders, o'.id = o.id ∧
      statusRank o.status ≤ statusRank o'.status ∧
      (o.status = "done" → o' = o) :=
  run_mem_status admins ops hWf ho

theorem claim1_status_monotone_witness :
    Wf sampleStore ∧
      (∀ op ∈ [Op.paid 10 1, Op.fulfill 99 1], op.isStatusOp = true) ∧
      sampleOrder ∈ sampleStore.orders ∧
      ∃ o' ∈ (run [99] sampleStore [Op.paid 10 1, Op.fulfill 99 1]).orders,
        o'.id = sampleOrder.id ∧
        statusRank sampleOrder.status ≤ statusRank o'.status ∧
        (sampleOrder.status = "done" → o' = sampleOrder) :=
  ⟨Wf_sampleStore, by decide, by decide,
    claim1_status_monotone [99] sampleStore Wf_sampleStore
      [Op.paid 10 1, Op.fulfill 99 1] (by decide) (by decide)⟩

/-- C2: `/fulfill` answers `Unauthorized` for any requester outside the
allow-list; otherwise `NotFound` when no order has the id; otherwise
`AlreadyDone` when that order is `done`; otherwise it succeeds and the
order's status becomes `done`, whatever non-`done` status it had. -/
theorem claim2_fulfill_cases (admins : List Int) (s : Store) (r : Int) (oid : Nat) :
    (r ∉ admins → cmd_fulfill admins s r oid = (Result.Unauthorized, s)) ∧
    (r ∈ admins → findOrder s oid = none →
      cmd_fulfill admins s r oid = (Result.NotFound, s)) ∧
    (∀ o, r ∈ admins → findOrder s oid = some o → o.status = "done" →
      cmd_fulfill admins s r oid = (Result.AlreadyDone, s)) ∧
    (∀ o, r ∈ admins → findOrder s oid = some o → o.status ≠ "done" →
      (cmd_fulfill admins s r oid).1 = Result.Ok ∧
        findOrder (cmd_fulfill admins s r oid).2 oid =
          some { o with status := "done" }) := by
  refine ⟨?_, ?_, ?_, ?_⟩
  · intro hr
    simp [cmd_fulfill, hr]
  · intro hr h
    simp [cmd_fulfill, hr, h]
  · intro o hr h hs
    simp [cmd_fulfill, hr, h, hs]
  · intro o hr h hs
    have hsnd : (cmd_fulfill admins s r oid).2 = updateStatus s oid "done" := by
      simp [cmd_fulfill, hr, h, hs]
    refine ⟨by simp [cmd_fulfill, hr, h, hs], ?_⟩
    rw [hsnd, findOrder_updateStatus, h]
    rfl

theorem claim2_fulfill_cases_witness :
    cmd_fulfill [99] sampleStore 5 1 = (Result.Unauthorized, sampleStore) ∧
    cmd_fulfill [99] sampleStore 99 7 = (Result.NotFound, sampleStore) ∧
    cmd_fulfill [99] doneStore 99 1 = (Result.AlreadyDone, doneStore) ∧
    ((cmd_fulfill [99] sampleStore 99 1).1 = Result.Ok ∧
      findOrder (cmd_fulfill [99] sampleStore 99 1).2 1 =
        some { sampleOrder with status := "done" }) :=
  ⟨(claim2_fulfill_cases [99] sampleStore 5 1).1 (by decide),
   (claim2_fulfill_cases [99] sampleStore 99 7).2.1 (by decide) (by decide),
   (claim2_fulfill_cases [99] doneStore 99 1).2.2.1 doneOrder (by decide)
     (by decide) (by decide),
   (claim2_fulfill_cases [99] sampleStore 99 1).2.2.2 sampleOrder (by decide)
     (by decide) (by decide)⟩

theorem cmd_paid_not_pending {s : Store} {oid : Nat} {o : Order} (c : Int)
    (h : findOrder s oid = some o) (hs : o.status ≠ "pending") :
    cmd_paid s c oid = (Result.InvalidState, s) := by
  simp [cmd_paid, h, hs]

/-- C3: `/paid` answers `NotFound` when no order has the id,
`InvalidState` when the order is not `pending`, and on a `pending` order
succeeds, setting the status to `paid_waiting`; the immediate second call
then answers `InvalidState` and leaves the store untouched. -/
theorem claim3_report_payment_cases (s : Store) (c c2 : Int) (oid : Nat) :
    (findOrder s oid = none → cmd_paid s c oid = (Result.NotFound, s)) ∧
    (∀ o, findOrder s oid = some o → o.status ≠ "pending" →
      cmd_paid s c oid = (Result.InvalidState, s)) ∧
    (∀ o, findOrder s oid = some o → o.status = "pending" →
      (cmd_paid s c oid).1 = Result.Ok ∧
        findOrder (cmd_paid s c oid).2 oid =
          some { o with status := "paid_waiting" } ∧
        cmd_paid (cmd_paid s c oid).2 c2 oid =
          (Result.InvalidState, (cmd_paid s c oid).2)) := by
  refine ⟨?_, ?_, ?_⟩
  · intro h
    simp [cmd_paid, h]
  · intro o h hs
    exact cmd_paid_not_pending c h hs
  · intro o h hs
    have hsnd : (cmd_paid s c oid).2 = updateStatus s oid "paid_waiting" := by
      simp [cmd_paid, h, hs]
    have hfind : findOrder (cmd_paid s c oid).2 oid =
        some { o with status := "paid_waiting" } := by
      rw [hsnd, findOrder_updateStatus, h]
      rfl
    refine ⟨by simp [cmd_paid, h, hs], hfind, ?_⟩
    exact cmd_paid_not_pending c2 hfind (by simp)

theorem claim3_report_payment_cases_witness :
    cmd_paid sampleStore 10 7 = (Result.NotFound, sampleStore) ∧
    cmd_paid doneStore 10 1 = (Result.InvalidState, doneStore) ∧
    ((cmd_paid sampleStore 10 1).1 = Result.Ok ∧
      findOrder (cmd_paid sampleStore 10 1).2 1 =
        some { sampleOrder with status := "paid_waiting" } ∧
      cmd_paid (cmd_paid sampleStore 10 1).2 10 1 =
        (Result.InvalidState, (cmd_paid sampleStore 10 1).2)) :=
  ⟨(claim3_report_payment_cases sampleStore 10 10 7).1 (by decide),
   (claim3_report_payment_cases doneStore 10 10 1).2.1 doneOrder (by decide)
     (by decide),
   (claim3_report_payment_cases sampleStore 10 10 1).2.2 sampleOrder (by decide)
     (by decide)⟩

/-- C7: whenever `/paid` or `/fulfill` answers any error
(`NotFound`, `InvalidState`, `Unauthorized` or `AlreadyDone`), the store
it returns is exactly the store it was given. -/
theorem claim7_error_leaves_store (admins : List Int) (s : Store) (c r : Int)
    (oid oid2 : Nat) :
    ((cmd_paid s c oid).1 ≠ Result.Ok → (cmd_paid s c oid).2 = s) ∧
    ((cmd_fulfill admins s r oid2).1 ≠ Result.Ok →
      (cmd_fulfill admins s r oid2).2 = s) := by
  constructor
  · intro hne
    cases h : findOrder s oid with
    | none => simp [cmd_paid, h]
    | some row =>
      by_cases hs : row.status = "pending"
      · exact absurd (by simp [cmd_paid, h, hs]) hne
      · simp [cmd_paid, h, hs]
  · intro hne
    by_cases hr : r ∈ admins
    · cases h : findOrder s oid2 with
      | none => simp [cmd_fulfill, hr, h]
      | some row =>
        by_cases hs : row.status = "done"
        · simp [cmd_fulfill, hr, h, hs]
        · exact absurd (by simp [cmd_fulfill, hr, h, hs]) hne
    · simp [cmd_fulfill, hr]

theorem claim7_error_leaves_store_witness :
    (cmd_paid doneStore 10 1).2 = doneStore ∧
      (cmd_fulfill [99] sampleStore 5 1).2 = sampleStore :=
  ⟨(claim7_error_leaves_store [99] doneStore 10 5 1 1).1 (by decide),
   (claim7_error_leaves_store [99] sampleStore 10 5 1 1).2 (by decide)⟩

/-- C9: `/paid` never checks who is calling: its outcome is the same for
every caller, it can only answer `Ok`, `NotFound` or `InvalidState`
(never `Unauthorized`), and on a `pending` order it succeeds even for a
caller different from the order's own `user_id`. -/
theorem claim9_paid_no_authorization (s : Store) (c c' : Int) (oid : Nat) :
    cmd_paid s c oid = cmd_paid s c' oid ∧
    (cmd_paid s c oid).1 ≠ Result.Unauthorized ∧
    ((cmd_paid s c oid).1 = Result.Ok ∨ (cmd_paid s c oid).1 = Result.NotFound ∨
      (cmd_paid s c oid).1 = Result.InvalidState) ∧
    (∀ o, findOrder s oid = some o → o.status = "pending" → c ≠ o.user_id →
      (cmd_paid s c oid).1 = Result.Ok ∧
        findOrder (cmd_paid s c oid).2 oid =
          some { o with status := "paid_waiting" }) := by
  have hshape : (cmd_paid s c oid).1 = Result.Ok ∨
      (cmd_paid s c oid).1 = Result.NotFound ∨
      (cmd_paid s c oid).1 = Result.InvalidState := by
    cases h : findOrder s oid with
    | none => simp [cmd_paid, h]
    | some row =>
      by_cases hs : row.status = "pending"
      · simp [cmd_paid, h, hs]
      · simp [cmd_paid, h, hs]
  refine ⟨rfl, ?_, hshape, ?_⟩
  · rcases hshape with h | h | h <;> simp [h]
  · intro o h hs _
    have hsnd : (cmd_paid s c oid).2 = updateStatus s oid "paid_waiting" := by
      simp [cmd_paid, h, hs]
    refine ⟨by simp [cmd_paid, h, hs], ?_⟩
    rw [hsnd, findOrder_updateStatus, h]
    rfl

theorem claim9_paid_no_authorization_witness :
    cmd_paid sampleStore 77 1 = cmd_paid sampleStore 10 1 ∧
      ((cmd_paid sampleStore 77 1).1 = Result.Ok ∧
        findOrder (cmd_paid sampleStore 77 1).2 1 =
          some { sampleOrder with status := "paid_waiting" }) :=
  ⟨(claim9_paid_no_authorization sampleStore 77 10 1).1,
   (claim9_paid_no_authorization sampleStore 77 10 1).2.2.2 sampleOrder
     (by decide) (by decide) (by decide)⟩

/-- C4: an order recorded by the external-payment handler `got_payment`
is `done` from the moment it exists: in the store it creates and after
any further sequence of operations, every row carrying its id has status
`done` — no state holds it as `pending` or `paid_waiting`. -/
theorem claim4_direct_payment_done (admins : List Int) (s : Store) (hWf : Wf s)
    (uid : Int) (un payload : String) (a : Int) (now : Nat) (ops : List Op) :
    ∀ o' ∈ (run admins (got_payment s uid un payload a now).2 ops).orders,
      o'.id = (got_payment s uid un payload a now).1 → o'.status = "done" := by
  intro o' ho' hid
  set newo : Order :=
    { id := s.next_id, user_id := uid, username := un, option := payload,
      amount := a, status := "done", created_at := now, note := none } with hnewo
  have hmem : newo ∈ (got_payment s uid un payload a now).2.orders := by
    show newo ∈ s.orders ++ [newo]
    exact List.mem_append_right _ (List.mem_singleton.2 rfl)
  have hWf1 : Wf (got_payment s uid un payload a now).2 :=
    Wf_add_order hWf uid un payload a "done" none now
  rcases run_mem_status admins ops hWf1 hmem with ⟨o₁, ho₁, hid₁, _, hdone⟩
  have ho₁eq : o₁ = newo := hdone rfl
  have ho'₁ : o' = o₁ := by
    refine eq_of_mem_of_id_eq (Wf_run admins hWf1 ops).2 ho' ho₁ ?_
    rw [hid, hid₁]
    rfl
  rw [ho'₁, ho₁eq]

theorem claim4_direct_payment_done_witness :
    Wf sampleStore ∧
      ∀ o' ∈ (run [99] (got_payment sampleStore 10 "user" "pay_100_10" 100 5).2
          [Op.paid 10 2, Op.fulfill 99 2]).orders,
        o'.id = (got_payment sampleStore 10 "user" "pay_100_10" 100 5).1 →
        o'.status = "done" :=
  ⟨Wf_sampleStore,
    claim4_direct_payment_done [99] sampleStore Wf_sampleStore 10 "user"
      "pay_100_10" 100 5 [Op.paid 10 2, Op.fulfill 99 2]⟩

/-- C5: `add_order` hands out strictly increasing ids — whatever
operations run in between, a later call returns a strictly larger id —
and in every store reachable from the fresh database no two rows share an
id. -/
theorem claim5_ids_strictly_increase (admins : List Int) (s : Store)
    (u1 u2 : Int) (n1 n2 p1 p2 st1 st2 : String) (a1 a2 : Int)
    (nt1 nt2 : Option String) (t1 t2 : Nat) (ops ops2 : List Op) :
    (add_order s u1 n1 p1 a1 st1 nt1 t1).1 <
      (add_order (run admins (add_order s u1 n1 p1 a1 st1 nt1 t1).2 ops)
        u2 n2 p2 a2 st2 nt2 t2).1 ∧
    (run admins initStore ops2).orders.Pairwise (fun a b => a.id ≠ b.id) := by
  constructor
  · show s.next_id < (run admins (add_order s u1 n1 p1 a1 st1 nt1 t1).2 ops).next_id
    have h2 : (add_order s u1 n1 p1 a1 st1 nt1 t1).2.next_id = s.next_id + 1 := rfl
    have h3 := next_id_run admins ops (add_order s u1 n1 p1 a1 st1 nt1 t1).2
    rw [h2] at h3
    exact Nat.lt_of_succ_le h3
  · exact (Wf_run admins Wf_initStore ops2).2.imp (fun hab => Nat.ne_of_lt hab)

/-- C6: on a well-formed store, "Buyurtmalarim" returns exactly the
caller's orders — membership is equivalent to being a stored order of
that user — in strictly decreasing id order (newest first), and the
empty list when the user has no orders. -/
theorem claim6_my_orders_spec (s : Store) (hWf : Wf s) (uid : Int) :
    (∀ o, o ∈ my_orders s uid ↔ o ∈ s.orders ∧ o.user_id = uid) ∧
    (my_orders s uid).Pairwise (fun a b => b.id < a.id) ∧
    ((∀ o ∈ s.orders, o.user_id ≠ uid) → my_orders s uid = []) := by
  refine ⟨?_, ?_, ?_⟩
  · intro o
    rw [my_orders, (sortByIdDesc_perm _).mem_iff, List.mem_filter]
    simp
  · have hsorted := sortByIdDesc_sorted (s.orders.filter (fun o => o.user_id = uid))
    have hne : (s.orders.filter (fun o => o.user_id = uid)).Pairwise
        (fun a b : Order => a.id ≠ b.id) :=
      (hWf.2.imp (fun hab => Nat.ne_of_lt hab)).filter _
    have hne' : (my_orders s uid).Pairwise (fun a b : Order => a.id ≠ b.id) :=
      ((sortByIdDesc_perm _).pairwise_iff (fun h => Ne.symm h)).2 hne
    exact (hsorted.and hne').imp (fun h => lt_of_le_of_ne h.1 (Ne.symm h.2))
  · intro hnone
    have hfil : s.orders.filter (fun o => o.user_id = uid) = [] := by
      refine List.filter_eq_nil_iff.2 ?_
      intro a ha
      simpa using hnone a ha
    rw [my_orders, hfil]
    rfl

theorem claim6_my_orders_spec_witness :
    Wf sampleStore ∧
      (∀ o, o ∈ my_orders sampleStore 10 ↔
        o ∈ sampleStore.orders ∧ o.user_id = 10) ∧
      (my_orders sampleStore 10).Pairwise (fun a b => b.id < a.id) ∧
      ((∀ o ∈ sampleStore.orders, o.user_id ≠ 10) →
        my_orders sampleStore 10 = []) :=
  ⟨Wf_sampleStore, claim6_my_orders_spec sampleStore Wf_sampleStore 10⟩

/-- C8: a successful `/paid` or `/fulfill` keeps the id counter, keeps
every row in place with its `id`, `user_id`, `username`, `option`,
`amount`, `created_at` and `note` fields intact, and keeps every row
whose id is not the targeted one entirely unchanged. -/
theorem claim8_success_frame (admins : List Int) (s : Store) (c r : Int)
    (oid oid2 : Nat) :
    ((cmd_paid s c oid).1 = Result.Ok → FrameOk oid s (cmd_paid s c oid).2) ∧
    ((cmd_fulfill admins s r oid2).1 = Result.Ok →
      FrameOk oid2 s (cmd_fulfill admins s r oid2).2) := by
  constructor
  · intro _
    rcases cmd_paid_snd s c oid with h | h <;> rw [h]
    · exact FrameOk_refl oid s
    · exact FrameOk_updateStatus s oid _
  · intro _
    rcases cmd_fulfill_snd admins s r oid2 with h | h <;> rw [h]
    · exact FrameOk_refl oid2 s
    · exact FrameOk_updateStatus s oid2 _

theorem claim8_success_frame_witness :
    ((cmd_paid sampleStore 10 1).1 = Result.Ok ∧
      FrameOk 1 sampleStore (cmd_paid sampleStore 10 1).2) ∧
    ((cmd_fulfill [99] sampleStore 99 1).1 = Result.Ok ∧
      FrameOk 1 sampleStore (cmd_fulfill [99] sampleStore 99 1).2) :=
  ⟨⟨by decide, (claim8_success_frame [99] sampleStore 10 99 1 1).1 (by decide)⟩,
   ⟨by decide, (claim8_success_frame [99] sampleStore 10 99 1 1).2 (by decide)⟩⟩

/-- With an empty allow-list, a handler step that is not an external
payment cannot produce a `done` row. -/
theorem no_done_applyOp {s : Store} (op : Op)
    (hs : ∀ o ∈ s.orders, o.status ≠ "done") (hop : op.isDirect = false) :
    ∀ o ∈ (applyOp [] s op).orders, o.status ≠ "done" := by
  cases op with
  | create uid un opt a now =>
    intro o ho
    have ho' : o ∈ s.orders ++
        [({ id := s.next_id, user_id := uid, username := un, option := opt,
            amount := a, status := "pending", created_at := now,
            note := none } : Order)] := ho
    rcases List.mem_append.1 ho' with h | h
    · exact hs o h
    · rw [List.mem_singleton.1 h]
      simp
  | direct uid un p a now => simp [Op.isDirect] at hop
  | paid c oid =>
    intro o ho
    rcases cmd_paid_snd s c oid with h | h
    · rw [show applyOp [] s (Op.paid c oid) = (cmd_paid s c oid).2 from rfl, h] at ho
      exact hs o ho
    · rw [show applyOp [] s (Op.paid c oid) = (cmd_paid s c oid).2 from rfl, h] at ho
      rcases List.mem_map.1 ho with ⟨x, hx, rfl⟩
      by_cases hxid : x.id = oid
      · simp [hxid]
      · simp only [hxid, if_neg, ite_false]
        exact hs x hx
  | fulfill r oid =>
    intro o ho
    have hempty : applyOp [] s (Op.fulfill r oid) = s := by
      simp [applyOp, cmd_fulfill]
    rw [hempty] at ho
    exact hs o ho

/-- With an empty allow-list, a run without external payments never
produces a `done` row. -/
theorem no_done_run (ops : List Op) : ∀ s : Store,
    (∀ o ∈ s.orders, o.status ≠ "done") →
    (∀ op ∈ ops, op.isDirect = false) →
    ∀ o ∈ (run [] s ops).orders, o.status ≠ "done" := by
  induction ops with
  | nil => exact fun s hs _ => hs
  | cons op ops ih =>
    intro s hs hdir
    exact ih _ (no_done_applyOp op hs (hdir op (List.mem_cons_self op ops)))
      (fun op' h => hdir op' (List.mem_cons_of_mem op h))

/-- C10: entries of `ADMIN_IDS` that do not strip to pure digit strings
are silently dropped by the parse; when that leaves the allow-list empty,
`/fulfill` answers `Unauthorized` for every requester and every order and
leaves the store alone, so without the external-payment handler no run
ever produces a `done` order. -/
theorem claim10_admin_parse (env : String) (s : Store) (r : Int) (oid : Nat)
    (ops : List Op) :
    ((parseAdminIds env).length =
      (pySplitComma env).countP (fun x => pyIsDigit (pyStrip x))) ∧
    (∀ v ∈ parseAdminIds env, ∃ x ∈ pySplitComma env,
      pyIsDigit (pyStrip x) = true ∧ pyInt x = v) ∧
    (parseAdminIds env = [] →
      cmd_fulfill (parseAdminIds env) s r oid = (Result.Unauthorized, s)) ∧
    (parseAdminIds env = [] → (∀ o ∈ s.orders, o.status ≠ "done") →
      (∀ op ∈ ops, op.isDirect = false) →
      ∀ o ∈ (run (parseAdminIds env) s ops).orders, o.status ≠ "done") := by
  refine ⟨?_, ?_, ?_, ?_⟩
  · simp [parseAdminIds, List.countP_eq_length_filter]
  · intro v hv
    rcases List.mem_map.1 hv with ⟨x, hx, rfl⟩
    rcases List.mem_filter.1 hx with ⟨hxm, hxd⟩
    exact ⟨x, hxm, hxd, rfl⟩
  · intro hempty
    rw [hempty]
    simp [cmd_fulfill]
  · intro hempty hs hdir
    rw [hempty]
    exact no_done_run ops s hs hdir

theorem claim10_admin_parse_witness :
    ((parseAdminIds "admin,-5, 12x").length =
      (pySplitComma "admin,-5, 12x").countP (fun x => pyIsDigit (pyStrip x))) ∧
    cmd_fulfill (parseAdminIds "admin,-5, 12x") sampleStore 99 1 =
      (Result.Unauthorized, sampleStore) ∧
    ∀ o ∈ (run (parseAdminIds "admin,-5, 12x") sampleStore
        [Op.paid 10 1, Op.fulfill 99 1]).orders, o.status ≠ "done" :=
  ⟨(claim10_admin_parse "admin,-5, 12x" sampleStore 99 1
      [Op.paid 10 1, Op.fulfill 99 1]).1,
   (claim10_admin_parse "admin,-5, 12x" sampleStore 99 1
      [Op.paid 10 1, Op.fulfill 99 1]).2.2.1 (by decide),
   (claim10_admin_parse "admin,-5, 12x" sampleStore 99 1
      [Op.paid 10 1, Op.fulfill 99 1]).2.2.2 (by decide) (by decide) (by decide)⟩

end PubgBot
